import Mathlib

/-!
Verification of the per-key token-bucket rate-limiting middleware of
`hapkiduki/order-go` (`internal/interfaces/http/middleware/middleware.go`,
second revision of the file).

The development embeds, as executable Lean definitions:
  * the token-bucket admission algorithm backing `rate.NewLimiter` /
    `limiter.Allow` (the `golang.org/x/time/rate` sources are not part of
    the repository, so the bucket is modelled from the spec, §4.2);
  * the per-key limiter registry of `RateLimiter` (`getLimiter`), with
    `*rate.Limiter` pointer identity modelled by an allocation counter;
  * the eviction pass `cleanupInactiveLimiters`;
  * the key-derivation pipeline `RealIP` / `GetRealIP`;
  * the admission boundary (the 429 rejection path of the middleware).

Go maps are embedded as association lists with unique keys; timestamps are
integers (Unix nanoseconds) where the Go code uses `UnixNano`, and rationals
where the bucket algorithm works in seconds.  Locking is collapsed to
sequential semantics: every claim about concurrent executions is read as a
claim about the corresponding sequentialised interleaving.
-/

namespace OrderGo

/-! ### Token bucket (modelled from the spec, §4.2)

`golang.org/x/time/rate` is an external dependency, absent from the
repository sources, so the bucket is modelled from the spec's
description of `Allow()`:
  1. `elapsed = now - lastRefill`; `tokens = min(C, tokens + elapsed * R)`;
     `lastRefill = now`.
  2. If `tokens ≥ 1`: `tokens -= 1`; return admit.
  3. Else return reject.
Token counts are rationals (the spec allows floating point; the claims at
stake are exercised on exactly representable values only). -/

/-- Minimum of two rationals, written out so that kernel reduction can
evaluate it on concrete inputs (Mathlib's lattice `min` is irreducible). -/
def rmin (a b : ℚ) : ℚ := if a ≤ b then a else b

theorem rmin_eq_min (a b : ℚ) : rmin a b = min a b := by
  simp [rmin, min_def]

/-- Modelled from the spec: the state of one `*rate.Limiter` token bucket
(§4.2): capacity `C` (burst), refill rate `R` (tokens/second), current
token count, and the instant of the last refill (seconds). -/
structure TokenBucket where
  capacity : ℚ
  rate : ℚ
  tokens : ℚ
  lastRefill : ℚ
deriving DecidableEq

/-- Modelled from the spec: `rate.NewLimiter(rate.Limit(rps), burst)` —
a bucket that starts full (`tokens = C`) at creation time `now`. -/
def newLimiter (requestsPerSecond : ℚ) (burst : ℤ) (now : ℚ) : TokenBucket :=
  { capacity := (burst : ℚ), rate := requestsPerSecond,
    tokens := (burst : ℚ), lastRefill := now }

/-- Modelled from the spec: `limiter.Allow()` at instant `now` — refill
to `min(C, tokens + elapsed·R)`, stamp `lastRefill`, then admit and
consume one token iff at least one token is available. -/
def TokenBucket.allow (b : TokenBucket) (now : ℚ) : Bool × TokenBucket :=
  let elapsed := now - b.lastRefill
  let t := rmin b.capacity (b.tokens + elapsed * b.rate)
  if 1 ≤ t then (true, { b with tokens := t - 1, lastRefill := now })
  else (false, { b with tokens := t, lastRefill := now })

/-- `n` back-to-back `Allow()` calls at the same instant `now`, returning
the list of admission decisions and the final bucket state. -/
def TokenBucket.allowN (b : TokenBucket) (now : ℚ) : Nat → List Bool × TokenBucket
  | 0 => ([], b)
  | n + 1 =>
    let step := b.allow now
    let rest := step.2.allowN now n
    (step.1 :: rest.1, rest.2)

/-! ### Limiter registry (`middleware.go`, second revision, lines 559–682)

The Go registry is `map[string]*limiterEntry` guarded by a `sync.RWMutex`.
It is embedded as an association list with unique keys.  A `*rate.Limiter`
pointer is embedded as a `LimiterObj`: an allocation id (fresh ids are
drawn from a counter, so `nextId` counts `rate.NewLimiter` constructor
calls) together with the construction parameters passed at line 675. -/

/-- Identity and construction parameters of one `*rate.Limiter` as
allocated at line 675: `rate.NewLimiter(rate.Limit(config.RequestsPerSecond),
config.Burst)`. -/
structure LimiterObj where
  id : Nat
  limit : ℚ
  burst : ℤ
deriving DecidableEq

/-- `limiterEntry` (lines 581–584): a rate limiter with its last access
time, in Unix nanoseconds. -/
structure limiterEntry where
  limiter : LimiterObj
  lastAccess : ℤ
deriving DecidableEq

/-- The `limiters` map: `map[string]*limiterEntry` as an association list
with unique keys. -/
abbrev Registry := List (String × limiterEntry)

/-- Go map indexing `limiters[key]`. -/
def lookupEntry : Registry → String → Option limiterEntry
  | [], _ => none
  | (k, e) :: rest, key => if k = key then some e else lookupEntry rest key

/-- The in-place store `atomic.StoreInt64(&entry.lastAccess, now)` on the
entry under `key` (lines 657 and 670). -/
def updateAccess : Registry → String → ℤ → Registry
  | [], _, _ => []
  | (k, e) :: rest, key, now =>
    if k = key then (k, { e with lastAccess := now }) :: rest
    else (k, e) :: updateAccess rest key now

/-- `RateLimiterConfig` (lines 560–577), data fields only: the key
derivation function `KeyFunc` is embedded separately as `rateLimitKey`.
Durations are in nanoseconds (`time.Duration`). -/
structure RateLimiterConfig where
  requestsPerSecond : ℚ
  burst : ℤ
  cleanupInterval : ℤ
  inactiveTTL : ℤ
deriving DecidableEq

/-- `DefaultRateLimiterConfig` (lines 590–600): 10 requests/second,
burst 20, cleanup every 5 minutes, inactive TTL 10 minutes. -/
def DefaultRateLimiterConfig : RateLimiterConfig :=
  { requestsPerSecond := 10, burst := 20,
    cleanupInterval := 5 * 60 * 1000000000,
    inactiveTTL := 10 * 60 * 1000000000 }

/-- The defaulting at the top of `RateLimiter` (lines 612–618): a zero
`CleanupInterval` or `InactiveTTL` is replaced by 5 or 10 minutes; no
other field is touched and nothing is validated. -/
def applyRateLimiterDefaults (cfg : RateLimiterConfig) : RateLimiterConfig :=
  { cfg with
    cleanupInterval :=
      if cfg.cleanupInterval = 0 then 5 * 60 * 1000000000 else cfg.cleanupInterval,
    inactiveTTL :=
      if cfg.inactiveTTL = 0 then 10 * 60 * 1000000000 else cfg.inactiveTTL }

/-- The mutable state owned by one `RateLimiter` middleware instance: the
`limiters` map plus the allocation counter modelling pointer freshness. -/
structure RegistryState where
  limiters : Registry
  nextId : Nat
deriving DecidableEq

/-- `getLimiter` (lines 648–682), sequentialised: under the read lock, a
present entry is stamped with `now` and its limiter returned; otherwise
(the write-lock double-check re-running the same lookup) a fresh limiter
is constructed from the configured rate and burst and inserted with
`lastAccess = now`.  `now` is the `time.Now().UnixNano()` of line 649. -/
def getLimiter (cfg : RateLimiterConfig) (s : RegistryState) (key : String)
    (now : ℤ) : LimiterObj × RegistryState :=
  match lookupEntry s.limiters key with
  | some entry =>
    (entry.limiter, { s with limiters := updateAccess s.limiters key now })
  | none =>
    let limiter : LimiterObj :=
      { id := s.nextId, limit := cfg.requestsPerSecond, burst := cfg.burst }
    (limiter,
     { limiters := (key, { limiter := limiter, lastAccess := now }) :: s.limiters,
       nextId := s.nextId + 1 })

/-- `n` successive `getLimiter` calls for the same key (the sequentialised
reading of `n` concurrent `GetOrCreate(sameKey)` calls). -/
def getLimiterCalls (cfg : RateLimiterConfig) (s : RegistryState) (key : String)
    (now : ℤ) : Nat → RegistryState
  | 0 => s
  | n + 1 => getLimiterCalls cfg (getLimiter cfg s key now).2 key now n

/-- `cleanupInactiveLimiters` (lines 707–721): with `cutoff = now - ttl`,
delete every entry whose `lastAccess < cutoff`; keep the rest. -/
def cleanupInactiveLimiters (now ttl : ℤ) (m : Registry) : Registry :=
  m.filter fun kv => !decide (kv.2.lastAccess < now - ttl)

/-! ### Key derivation (`RealIP`, lines 811–835, and `GetRealIP`, lines 423–433)

The inbound request is reduced to the three fields the pipeline reads:
the `X-Forwarded-For` header, the `X-Real-IP` header (Go's `Header.Get`
returns the empty string for an absent header), and `RemoteAddr`. -/

/-- The request metadata consumed by the key-derivation pipeline. -/
structure HttpRequest where
  xForwardedFor : String
  xRealIP : String
  remoteAddr : String
deriving DecidableEq

/-- `strings.Split` for a one-character separator, on the character
sequence of a Go string: split at every occurrence of `sep`; always at
least one (possibly empty) piece.  Structurally recursive so that every
theorem below can be evaluated by kernel reduction. -/
def splitChar (sep : Char) : List Char → List (List Char)
  | [] => [[]]
  | c :: cs =>
    match splitChar sep cs with
    | [] => [[]]
    | h :: t => if c = sep then [] :: h :: t else (c :: h) :: t

/-- The whitespace set of `strings.TrimSpace`, restricted to ASCII. -/
def isSpaceChar (c : Char) : Bool :=
  c = ' ' || c = '\t' || c = '\n' || c = '\r'

/-- `strings.TrimSpace` on a character sequence. -/
def trimChars (cs : List Char) : List Char :=
  ((cs.dropWhile isSpaceChar).reverse.dropWhile isSpaceChar).reverse

/-- `strings.Split(s, sep)` for a one-character separator. -/
def goSplit (sep : Char) (s : String) : List String :=
  (splitChar sep s.data).map fun cs => ⟨cs⟩

/-- `strings.TrimSpace(s)`. -/
def goTrimSpace (s : String) : String :=
  ⟨trimChars s.data⟩

/-- Decimal value of a digit sequence. -/
def digitsVal (cs : List Char) : Nat :=
  cs.foldl (fun n c => n * 10 + (c.toNat - 48)) 0

/-- Hexadecimal digit, as in Go's IP parser. -/
def isHexDigit (c : Char) : Bool :=
  c.isDigit || ('a' ≤ c && c ≤ 'f') || ('A' ≤ c && c ≤ 'F')

/-- One dotted-decimal IPv4 field: 1–3 digits, value ≤ 255, no leading
zero (Go ≥ 1.17 `net.ParseIP` rejects leading zeros). -/
def isValidIPv4Field (f : List Char) : Bool :=
  !f.isEmpty && decide (f.length ≤ 3) && f.all Char.isDigit &&
    (f == ['0'] || !(['0'].isPrefixOf f)) && decide (digitsVal f ≤ 255)

/-- Dotted-decimal IPv4: exactly four valid fields. -/
def isValidIPv4 (s : String) : Bool :=
  let parts := splitChar '.' s.data
  parts.length == 4 && parts.all isValidIPv4Field

/-- Coarse textual IPv6 check: colon-separated groups of at most four hex
digits, with at most one compressed-zero run; exactly eight groups when
nothing is compressed.  (A superset of the RFC 4291 forms accepted by
`net.ParseIP`; the exact IPv6 extension is immaterial to the theorems
below, which are uniform in the validity predicate's verdicts.) -/
def isValidIPv6 (s : String) : Bool :=
  let parts := splitChar ':' s.data
  decide (2 ≤ parts.length) && decide (parts.length ≤ 9) &&
    parts.all (fun p => p.isEmpty || (decide (p.length ≤ 4) && p.all isHexDigit)) &&
    decide ((parts.filter List.isEmpty).length ≤ 3) &&
    (!(parts.filter List.isEmpty).isEmpty || parts.length == 8)

/-- Modelled from the spec: the `net.ParseIP(realIP) != nil` test of line
828 (`net` is the Go standard library, absent from the repository) — a
syntactically valid IPv4 or IPv6 address. -/
def isValidIP (s : String) : Bool :=
  isValidIPv4 s || isValidIPv6 s

/-- Modelled from the spec: the host part returned by
`net.SplitHostPort(r.RemoteAddr)` at line 428 (Go standard library,
absent from the repository).  `"h:p"` yields `"h"`, `"[h]:p"` yields
`"h"`, and every malformed input yields `""` — `GetRealIP` discards the
error, so an error surfaces only as the empty host. -/
def splitHostPortHost (s : String) : String :=
  let parts := splitChar ':' s.data
  if parts.length = 2 ∧ ¬ (['['].isPrefixOf s.data) then ⟨parts.headD []⟩
  else if ['['].isPrefixOf s.data then
    let inner := (s.data.drop 1).takeWhile fun c => c ≠ ']'
    if [']', ':'].isPrefixOf (s.data.drop (1 + inner.length)) then ⟨inner⟩ else ""
  else ""

/-- The candidate address `RealIP` reads from the headers (lines 813–825):
the first comma-separated entry of `X-Forwarded-For`, trimmed, if that
header is present; else `X-Real-IP` trimmed, if present; else empty. -/
def realIPHeaderCandidate (r : HttpRequest) : String :=
  if r.xForwardedFor ≠ "" then goTrimSpace ((goSplit ',' r.xForwardedFor).headD "")
  else if r.xRealIP ≠ "" then goTrimSpace r.xRealIP
  else ""

/-- The context value stored by `RealIP` (lines 827–831): the candidate,
when it is nonempty and a syntactically valid IP; nothing otherwise. -/
def realIPContext (r : HttpRequest) : Option String :=
  let realIP := realIPHeaderCandidate r
  if realIP ≠ "" ∧ isValidIP realIP then some realIP else none

/-- The fallback of `GetRealIP` (lines 428–432): the host part of
`RemoteAddr` when `net.SplitHostPort` yields one, else `RemoteAddr`
verbatim.  This is the direct peer address. -/
def peerAddress (r : HttpRequest) : String :=
  let host := splitHostPortHost r.remoteAddr
  if host ≠ "" then host else r.remoteAddr

/-- `GetRealIP` (lines 423–433): the context value when present and
nonempty, else the peer fallback. -/
def getRealIP (r : HttpRequest) (ctxIP : Option String) : String :=
  match ctxIP with
  | some ip => if ip ≠ "" then ip else peerAddress r
  | none => peerAddress r

/-- The rate-limit key of a request: `RealIP` populates the context, then
the default `KeyFunc` (line 594) calls `GetRealIP`. -/
def rateLimitKey (r : HttpRequest) : String :=
  getRealIP r (realIPContext r)

/-- The key derivation as the spec words it (§4.1): take the first
trimmed `X-Forwarded-For` entry if that header is present, else the
trimmed `X-Real-IP` if present; when the candidate is a syntactically
valid IP address it becomes the key, otherwise — or when both headers
are absent — the key is the direct peer address.  Stated for comparison
with the pipeline embedded from the code (`rateLimitKey`). -/
def specKeyExtractor (r : HttpRequest) : String :=
  if r.xForwardedFor ≠ "" then
    let cand := goTrimSpace ((goSplit ',' r.xForwardedFor).headD "")
    if isValidIP cand then cand else peerAddress r
  else if r.xRealIP ≠ "" then
    let cand := goTrimSpace r.xRealIP
    if isValidIP cand then cand else peerAddress r
  else peerAddress r

/-! ### Admission boundary (`RateLimiter`'s handler, lines 684–703)

The `http.ResponseWriter` is embedded as a record of status code (unset
until the first `WriteHeader`), headers, and accumulated body. -/

/-- The observable state of the response writer. -/
structure RespState where
  status : Option Nat
  headers : List (String × String)
  body : String
deriving DecidableEq

/-- `w.Header().Set(k, v)`: replace any previous value of `k`. -/
def setHeader (w : RespState) (k v : String) : RespState :=
  { w with headers := (k, v) :: w.headers.filter fun p => p.1 ≠ k }

/-- `w.Header().Get(k)`. -/
def headerGet (w : RespState) (k : String) : Option String :=
  (w.headers.find? fun p => p.1 = k).map Prod.snd

/-- `w.WriteHeader(code)`: the first call fixes the status; later calls
are ignored by the server. -/
def writeHeader (w : RespState) (code : Nat) : RespState :=
  if w.status = none then { w with status := some code } else w

/-- `w.Write(s)`: append to the body (an implicit 200 is sent if no
status was set yet). -/
def write (w : RespState) (s : String) : RespState :=
  { w with body := w.body ++ s,
           status := some (w.status.getD 200) }

/-- The rejection body written at line 693. -/
def rateLimitedBody : String :=
  "\x7b\"success\":false,\"error\":\x7b\"code\":\"RATE_LIMITED\",\"message\":\"Too many requests, please try again later\"\x7d\x7d"

/-- The handler wrapped around `next` (lines 685–702), as a function of
the `limiter.Allow()` verdict: on rejection it sets `Content-Type` and
`Retry-After: 1`, sends 429 with the rejection body, and returns without
calling `next`; on admission it calls `next` once and adds nothing.  The
second component counts invocations of the downstream handler. -/
def rateLimiterHandler (next : RespState → RespState) (allowed : Bool)
    (w : RespState) : RespState × Nat :=
  if allowed then (next w, 1)
  else
    (write
      (writeHeader
        (setHeader (setHeader w "Content-Type" "application/json") "Retry-After" "1")
        429)
      rateLimitedBody, 0)

/-! ### Evictor lifecycle (lines 629–646)

The cleanup goroutine loops on `select`, returning on `ctx.Done()` and
running `cleanupInactiveLimiters` on each ticker tick.  Its lifecycle is
embedded as a fold over the sequence of events it observes; the state is
`some registry` while the loop runs and `none` once it has returned. -/

/-- An event observed by the cleanup goroutine's `select`: the context
becoming done, or a ticker tick at instant `now` (Unix nanoseconds). -/
inductive EvictorEvent where
  | ctxDone : EvictorEvent
  | tick : ℤ → EvictorEvent
deriving DecidableEq

/-- One iteration of the `for`/`select` loop (lines 638–645). -/
def evictorStep (ttl : ℤ) (st : Option Registry) (ev : EvictorEvent) :
    Option Registry :=
  match st, ev with
  | none, _ => none
  | some _, .ctxDone => none
  | some m, .tick now => some (cleanupInactiveLimiters now ttl m)

/-- The loop run over a finite prefix of its event stream. -/
def evictorRun (ttl : ℤ) (evs : List EvictorEvent) (m : Registry) :
    Option Registry :=
  evs.foldl (evictorStep ttl) (some m)

/-- What `RateLimiter` exposes of the cancel function created at line 629:
line 630 assigns it to the blank identifier (`_ = cancel // Intentionally
not called`) and the constructor returns only the middleware function, so
no cancellation handle reaches any caller. -/
def rateLimiterExposedCancel : Option Unit := none

/-! ## Claims about the token bucket -/

/-- C2: for every bucket state and every call, `Allow()` first refills the
token count to `min(C, tokens + elapsed·R)` with `elapsed = now - lastRefill`
and sets `lastRefill = now`; then it admits and decrements by one exactly
when the refilled count is at least 1, and rejects otherwise, leaving
capacity and rate unchanged. -/
theorem allow_refill_then_decrement (b : TokenBucket) (now : ℚ) :
    ((b.allow now).1 = true ↔
      1 ≤ min b.capacity (b.tokens + (now - b.lastRefill) * b.rate)) ∧
    (b.allow now).2.lastRefill = now ∧
    (b.allow now).2.capacity = b.capacity ∧
    (b.allow now).2.rate = b.rate ∧
    (b.allow now).2.tokens =
      (if 1 ≤ min b.capacity (b.tokens + (now - b.lastRefill) * b.rate) then
        min b.capacity (b.tokens + (now - b.lastRefill) * b.rate) - 1
      else
        min b.capacity (b.tokens + (now - b.lastRefill) * b.rate)) := by
  rw [← rmin_eq_min]
  by_cases h : 1 ≤ rmin b.capacity (b.tokens + (now - b.lastRefill) * b.rate) <;>
    simp [TokenBucket.allow, h]

/-- C5: the token count stays within `[0, capacity]` across any `Allow()`
call, for every bucket whose state satisfies the invariant and whose rate
is nonnegative — in particular an arbitrarily long idle period refills to
at most `capacity` tokens, never to `elapsed·rate`. -/
theorem allow_tokens_bounded (b : TokenBucket) (now : ℚ)
    (h0 : 0 ≤ b.tokens) (h1 : b.tokens ≤ b.capacity)
    (hr : 0 ≤ b.rate) (hn : b.lastRefill ≤ now) :
    0 ≤ (b.allow now).2.tokens ∧ (b.allow now).2.tokens ≤ b.capacity := by
  have hc : (0:ℚ) ≤ b.capacity := le_trans h0 h1
  have hx : (0:ℚ) ≤ b.tokens + (now - b.lastRefill) * b.rate := by
    have := mul_nonneg (sub_nonneg.2 hn) hr
    linarith
  have hmin0 : 0 ≤ rmin b.capacity (b.tokens + (now - b.lastRefill) * b.rate) := by
    unfold rmin; split <;> assumption
  have hminc : rmin b.capacity (b.tokens + (now - b.lastRefill) * b.rate) ≤ b.capacity := by
    unfold rmin; split
    · exact le_refl _
    · exact le_of_not_le (by assumption)
  by_cases h : 1 ≤ rmin b.capacity (b.tokens + (now - b.lastRefill) * b.rate) <;>
    simp [TokenBucket.allow, h] <;>
    first
    | (constructor <;> linarith)
    | linarith

/-- Witness for C5 at the spec's cap scenario: a fresh bucket with
`capacity = 20, rate = 10/s` left idle for 100 seconds; the next `Allow()`
admits and leaves 19 tokens — never the 1000 accumulated ones. -/
theorem allow_tokens_bounded_witness :
    ((0:ℚ) ≤ (newLimiter 10 20 0).tokens ∧
      (newLimiter 10 20 0).tokens ≤ (newLimiter 10 20 0).capacity ∧
      (0:ℚ) ≤ (newLimiter 10 20 0).rate ∧
      (newLimiter 10 20 0).lastRefill ≤ 100) ∧
    (0 ≤ ((newLimiter 10 20 0).allow 100).2.tokens ∧
      ((newLimiter 10 20 0).allow 100).2.tokens ≤ (newLimiter 10 20 0).capacity) ∧
    (newLimiter 10 20 0).allow 100 =
      (true, { capacity := 20, rate := 10, tokens := 19, lastRefill := 100 }) := by
  refine ⟨⟨?_, ?_, ?_, ?_⟩, ?_, ?_⟩
  · with_unfolding_all decide
  · with_unfolding_all decide
  · with_unfolding_all decide
  · with_unfolding_all decide
  · exact allow_tokens_bounded (newLimiter 10 20 0) 100
      (by with_unfolding_all decide) (by with_unfolding_all decide)
      (by with_unfolding_all decide) (by with_unfolding_all decide)
  · with_unfolding_all decide

/-- C6: with the default configuration (`rate = 10/s`, `burst = 20`), 25
back-to-back `Allow()` calls on one fresh bucket admit exactly the first
20 and reject the remaining 5. -/
theorem default_burst_admits_twenty_then_rejects_five :
    (TokenBucket.allowN
        (newLimiter DefaultRateLimiterConfig.requestsPerSecond
          DefaultRateLimiterConfig.burst 0) 0 25).1 =
      List.replicate 20 true ++ List.replicate 5 false := by
  with_unfolding_all decide

/-! ## Registry lemmas -/

/-- A key absent from a registry stays absent after any filter pass. -/
theorem lookupEntry_filter_of_not_mem (m : Registry) (p : String × limiterEntry → Bool)
    (key : String) (h : key ∉ m.map Prod.fst) :
    lookupEntry (m.filter p) key = none := by
  induction m with
  | nil => simp [lookupEntry]
  | cons kv rest ih =>
    obtain ⟨k, e⟩ := kv
    simp only [List.map_cons, List.mem_cons, not_or] at h
    by_cases hp : p (k, e)
    · simp only [List.filter_cons, hp, if_pos, lookupEntry]
      rw [if_neg fun hk => h.1 hk.symm]
      exact ih h.2
    · simp only [List.filter_cons]
      rw [if_neg (by simp [hp])]
      exact ih h.2

/-- An entry the filter keeps is still found under its key afterwards. -/
theorem lookupEntry_filter_of_pos (m : Registry) (p : String × limiterEntry → Bool)
    (key : String) (e : limiterEntry)
    (hl : lookupEntry m key = some e) (hp : p (key, e) = true) :
    lookupEntry (m.filter p) key = some e := by
  induction m with
  | nil => simp [lookupEntry] at hl
  | cons kv rest ih =>
    obtain ⟨k, e'⟩ := kv
    by_cases hk : k = key
    · subst hk
      simp only [lookupEntry, if_pos rfl] at hl
      obtain rfl : e' = e := Option.some.inj hl
      simp [List.filter_cons, hp, lookupEntry]
    · simp only [lookupEntry, if_neg hk] at hl
      by_cases hpe : p (k, e')
      · simp only [List.filter_cons, hpe, if_pos, lookupEntry]
        rw [if_neg hk]
        exact ih hl
      · simp only [List.filter_cons]
        rw [if_neg (by simp [hpe])]
        exact ih hl

/-- In a registry with unique keys, an entry the filter rejects is gone. -/
theorem lookupEntry_filter_of_neg (m : Registry) (p : String × limiterEntry → Bool)
    (key : String) (e : limiterEntry) (hnd : (m.map Prod.fst).Nodup)
    (hl : lookupEntry m key = some e) (hp : p (key, e) = false) :
    lookupEntry (m.filter p) key = none := by
  induction m with
  | nil => simp [lookupEntry] at hl
  | cons kv rest ih =>
    obtain ⟨k, e'⟩ := kv
    simp only [List.map_cons, List.nodup_cons] at hnd
    by_cases hk : k = key
    · subst hk
      simp only [lookupEntry, if_pos rfl] at hl
      obtain rfl : e' = e := Option.some.inj hl
      simp only [List.filter_cons]
      rw [if_neg (by simp [hp])]
      exact lookupEntry_filter_of_not_mem rest p k hnd.1
    · simp only [lookupEntry, if_neg hk] at hl
      by_cases hpe : p (k, e')
      · simp only [List.filter_cons, hpe, if_pos, lookupEntry]
        rw [if_neg hk]
        exact ih hnd.2 hl
      · simp only [List.filter_cons]
        rw [if_neg (by simp [hpe])]
        exact ih hnd.2 hl

/-- Stamping `lastAccess` rewrites exactly the entry under `key`. -/
theorem lookup_updateAccess (m : Registry) (key : String) (now : ℤ) (e : limiterEntry)
    (hl : lookupEntry m key = some e) :
    lookupEntry (updateAccess m key now) key =
      some { limiter := e.limiter, lastAccess := now } := by
  induction m with
  | nil => simp [lookupEntry] at hl
  | cons kv rest ih =>
    obtain ⟨k, e'⟩ := kv
    by_cases hk : k = key
    · subst hk
      simp only [lookupEntry, if_pos rfl] at hl
      obtain rfl : e' = e := Option.some.inj hl
      simp [updateAccess, lookupEntry]
    · simp only [lookupEntry, if_neg hk] at hl
      simp only [updateAccess, if_neg hk, lookupEntry]
      exact ih hl

/-- On a hit, `getLimiter` returns the stored limiter, allocates nothing,
and re-stamps the entry's `lastAccess`. -/
theorem getLimiter_of_present (cfg : RateLimiterConfig) (s : RegistryState)
    (key : String) (now : ℤ) (e : limiterEntry)
    (hl : lookupEntry s.limiters key = some e) :
    (getLimiter cfg s key now).1 = e.limiter ∧
    (getLimiter cfg s key now).2.nextId = s.nextId ∧
    lookupEntry (getLimiter cfg s key now).2.limiters key =
      some { limiter := e.limiter, lastAccess := now } := by
  unfold getLimiter
  rw [hl]
  exact ⟨rfl, rfl, lookup_updateAccess s.limiters key now e hl⟩

/-- A run of `getLimiter` calls on a key that is already present never
allocates a limiter. -/
theorem getLimiterCalls_nextId_of_present (cfg : RateLimiterConfig) (key : String)
    (now : ℤ) (n : Nat) :
    ∀ (s : RegistryState) (e : limiterEntry), lookupEntry s.limiters key = some e →
      (getLimiterCalls cfg s key now n).nextId = s.nextId := by
  induction n with
  | zero => intro s e _; rfl
  | succ n ih =>
    intro s e hl
    have h := getLimiter_of_present cfg s key now e hl
    calc (getLimiterCalls cfg (getLimiter cfg s key now).2 key now n).nextId
        = (getLimiter cfg s key now).2.nextId := ih _ _ h.2.2
      _ = s.nextId := h.2.1

/-! ## Claims about the registry -/

/-- C1: `getLimiter` returns the existing limiter for a present key,
stamping its `lastAccess` to now and constructing nothing (`nextId`
unchanged); for an absent key it constructs exactly one limiter with the
configured rate and burst and inserts it; hence `n ≥ 1` calls for the
same key allocate exactly one limiter (`nextId` grows by exactly 1). -/
theorem getLimiter_single_construction (cfg : RateLimiterConfig) (s : RegistryState)
    (key : String) (now : ℤ) :
    (∀ e, lookupEntry s.limiters key = some e →
      (getLimiter cfg s key now).1 = e.limiter ∧
      (getLimiter cfg s key now).2.nextId = s.nextId ∧
      lookupEntry (getLimiter cfg s key now).2.limiters key =
        some { limiter := e.limiter, lastAccess := now }) ∧
    (lookupEntry s.limiters key = none →
      (getLimiter cfg s key now).1 =
        { id := s.nextId, limit := cfg.requestsPerSecond, burst := cfg.burst } ∧
      (getLimiter cfg s key now).2.nextId = s.nextId + 1 ∧
      lookupEntry (getLimiter cfg s key now).2.limiters key =
        some { limiter := { id := s.nextId, limit := cfg.requestsPerSecond,
                            burst := cfg.burst },
               lastAccess := now }) ∧
    (∀ n, 1 ≤ n → lookupEntry s.limiters key = none →
      (getLimiterCalls cfg s key now n).nextId = s.nextId + 1) := by
  refine ⟨fun e hl => getLimiter_of_present cfg s key now e hl, fun hn => ?_, ?_⟩
  · unfold getLimiter
    rw [hn]
    exact ⟨rfl, rfl, by simp [lookupEntry]⟩
  · intro n h1 hn
    obtain ⟨n, rfl⟩ : ∃ m, n = m + 1 := ⟨n - 1, (Nat.succ_pred_eq_of_pos h1).symm⟩
    show (getLimiterCalls cfg (getLimiter cfg s key now).2 key now n).nextId = s.nextId + 1
    have hpres : lookupEntry (getLimiter cfg s key now).2.limiters key =
        some { limiter := { id := s.nextId, limit := cfg.requestsPerSecond,
                            burst := cfg.burst },
               lastAccess := now } := by
      unfold getLimiter
      rw [hn]
      simp [lookupEntry]
    have hnext : (getLimiter cfg s key now).2.nextId = s.nextId + 1 := by
      unfold getLimiter
      rw [hn]
    rw [getLimiterCalls_nextId_of_present cfg key now n _ _ hpres, hnext]

/-- Witness for C1: three calls for the fresh key `"k"` on an empty
registry allocate exactly one limiter. -/
theorem getLimiter_single_construction_witness :
    lookupEntry (⟨[], 0⟩ : RegistryState).limiters "k" = none ∧
    (getLimiterCalls ⟨10, 20, 0, 0⟩ ⟨[], 0⟩ "k" 5 3).nextId = 1 := by
  refine ⟨rfl, ?_⟩
  exact (getLimiter_single_construction ⟨10, 20, 0, 0⟩ ⟨[], 0⟩ "k" 5).2.2 3
    (by decide) rfl

/-! ## Claims about the evictor pass -/

/-- C3: a cleanup pass with `cutoff = now - ttl` removes exactly the
entries with `lastAccess < cutoff`: every such entry is absent afterwards
and every entry with `lastAccess ≥ cutoff` is retained; consequently an
entry idle for `ttl` plus any positive margin is absent after the pass,
while an entry accessed within the last `ttl/2` survives it. -/
theorem cleanup_removes_exactly_stale (m : Registry) (now ttl : ℤ) (key : String)
    (hnd : (m.map Prod.fst).Nodup) :
    (∀ e, lookupEntry m key = some e → e.lastAccess < now - ttl →
      lookupEntry (cleanupInactiveLimiters now ttl m) key = none) ∧
    (∀ e, lookupEntry m key = some e → now - ttl ≤ e.lastAccess →
      lookupEntry (cleanupInactiveLimiters now ttl m) key = some e) ∧
    (∀ e margin, 0 < margin → lookupEntry m key = some e →
      e.lastAccess = now - ttl - margin →
      lookupEntry (cleanupInactiveLimiters now ttl m) key = none) ∧
    (∀ e, 0 ≤ ttl → lookupEntry m key = some e → now - ttl / 2 ≤ e.lastAccess →
      lookupEntry (cleanupInactiveLimiters now ttl m) key = some e) := by
  have hstale : ∀ e, lookupEntry m key = some e → e.lastAccess < now - ttl →
      lookupEntry (cleanupInactiveLimiters now ttl m) key = none := by
    intro e hl hlt
    exact lookupEntry_filter_of_neg m _ key e hnd hl (by simp [hlt])
  have hkeep : ∀ e, lookupEntry m key = some e → now - ttl ≤ e.lastAccess →
      lookupEntry (cleanupInactiveLimiters now ttl m) key = some e := by
    intro e hl hge
    exact lookupEntry_filter_of_pos m _ key e hl (by simp [not_lt.2 hge])
  refine ⟨hstale, hkeep, ?_, ?_⟩
  · intro e margin hpos hl heq
    exact hstale e hl (by omega)
  · intro e httl hl hge
    refine hkeep e hl ?_
    have : ttl / 2 ≤ ttl := Int.ediv_le_self 2 httl
    omega

/-- Witness for C3: with `now = 150`, `ttl = 50`, entry `"a"` last
accessed at 0 (staler than the cutoff 100) is removed by the pass. -/
theorem cleanup_removes_exactly_stale_witness :
    ((([("a", ⟨⟨0, 10, 20⟩, 0⟩), ("b", ⟨⟨1, 10, 20⟩, 100⟩)] : Registry).map
        Prod.fst).Nodup ∧
      lookupEntry [("a", ⟨⟨0, 10, 20⟩, 0⟩), ("b", ⟨⟨1, 10, 20⟩, 100⟩)] "a" =
        some ⟨⟨0, 10, 20⟩, 0⟩ ∧
      (0:ℤ) < 150 - 50) ∧
    lookupEntry
      (cleanupInactiveLimiters 150 50
        [("a", ⟨⟨0, 10, 20⟩, 0⟩), ("b", ⟨⟨1, 10, 20⟩, 100⟩)]) "a" = none := by
  refine ⟨⟨?_, ?_, ?_⟩, ?_⟩
  · simp
  · rfl
  · decide
  · exact (cleanup_removes_exactly_stale
        [("a", ⟨⟨0, 10, 20⟩, 0⟩), ("b", ⟨⟨1, 10, 20⟩, 100⟩)] 150 50 "a"
        (by simp)).1 ⟨⟨0, 10, 20⟩, 0⟩ rfl (by decide)

/-- C10: a cleanup pass never mutates a surviving entry: an entry with
`lastAccess ≥ cutoff` is still present afterwards under the same key with
the same limiter object and the same `lastAccess`, and the pass only
deletes — the resulting registry is a sublist of the original. -/
theorem cleanup_frame_preserves_survivors (m : Registry) (now ttl : ℤ)
    (key : String) (e : limiterEntry)
    (hl : lookupEntry m key = some e) (hsurv : now - ttl ≤ e.lastAccess) :
    lookupEntry (cleanupInactiveLimiters now ttl m) key = some e ∧
    List.Sublist (cleanupInactiveLimiters now ttl m) m := by
  constructor
  · exact lookupEntry_filter_of_pos m _ key e hl (by simp [not_lt.2 hsurv])
  · exact List.filter_sublist m

/-- Witness for C10: entry `"b"` accessed at 130 survives a pass with
cutoff 100, verbatim, and the pass is a sublist of the original. -/
theorem cleanup_frame_preserves_survivors_witness :
    (lookupEntry [("a", ⟨⟨0, 10, 20⟩, 40⟩), ("b", ⟨⟨1, 10, 20⟩, 130⟩)] "b" =
        some ⟨⟨1, 10, 20⟩, 130⟩ ∧
      (150:ℤ) - 50 ≤ 130) ∧
    lookupEntry
      (cleanupInactiveLimiters 150 50
        [("a", ⟨⟨0, 10, 20⟩, 40⟩), ("b", ⟨⟨1, 10, 20⟩, 130⟩)]) "b" =
      some ⟨⟨1, 10, 20⟩, 130⟩ ∧
    List.Sublist
      (cleanupInactiveLimiters 150 50
        [("a", ⟨⟨0, 10, 20⟩, 40⟩), ("b", ⟨⟨1, 10, 20⟩, 130⟩)])
      [("a", ⟨⟨0, 10, 20⟩, 40⟩), ("b", ⟨⟨1, 10, 20⟩, 130⟩)] := by
  refine ⟨⟨rfl, by decide⟩, ?_⟩
  exact cleanup_frame_preserves_survivors
    [("a", ⟨⟨0, 10, 20⟩, 40⟩), ("b", ⟨⟨1, 10, 20⟩, 130⟩)] 150 50 "b"
    ⟨⟨1, 10, 20⟩, 130⟩ rfl (by decide)

/-! ## Claims about key derivation -/

/-- The empty candidate is never a valid IP address. -/
theorem isValidIP_empty : isValidIP "" = false := by decide

/-- The spec's key-derivation case analysis collapses to: the header
candidate when it is a valid IP, the peer address otherwise. -/
theorem specKeyExtractor_candidate_form (r : HttpRequest) :
    specKeyExtractor r =
      if isValidIP (realIPHeaderCandidate r) then realIPHeaderCandidate r
      else peerAddress r := by
  unfold specKeyExtractor realIPHeaderCandidate
  by_cases hxff : r.xForwardedFor = ""
  · by_cases hxr : r.xRealIP = ""
    · simp [hxff, hxr, isValidIP_empty]
    · simp [hxff, hxr]
  · simp [hxff]

/-- C4: the key the middleware pipeline derives (`RealIP` populating the
context, `GetRealIP` reading it) equals, for every request, the spec's
case analysis: first `X-Forwarded-For` entry trimmed, else `X-Real-IP`
trimmed; a syntactically valid candidate becomes the key, otherwise the
key falls back to the direct peer address.  In particular key extraction
is total — it always returns some key. -/
theorem rateLimitKey_matches_spec (r : HttpRequest) :
    rateLimitKey r = specKeyExtractor r := by
  have hne : realIPHeaderCandidate r ≠ "" ∨
      isValidIP (realIPHeaderCandidate r) = false := by
    by_cases h : realIPHeaderCandidate r = ""
    · right; rw [h]; exact isValidIP_empty
    · left; exact h
  rw [specKeyExtractor_candidate_form]
  unfold rateLimitKey realIPContext
  by_cases hv : isValidIP (realIPHeaderCandidate r)
  · have hns : realIPHeaderCandidate r ≠ "" := by
      rcases hne with h | h
      · exact h
      · rw [hv] at h; exact absurd h (by simp)
    rw [if_pos ⟨hns, hv⟩, if_pos hv]
    simp [getRealIP, hns]
  · rw [if_neg fun h => hv h.2, if_neg hv]
    simp [getRealIP]

/-! ## Claims about the admission boundary -/

/-- C7: on `Allow() == false` the middleware responds 429 with header
`Retry-After: 1` and a body containing `"code":"RATE_LIMITED"`, and does
not invoke the downstream handler; on `Allow() == true` it invokes the
downstream handler exactly once and adds nothing to the response. -/
theorem rateLimiter_boundary (next : RespState → RespState) (w : RespState)
    (hstatus : w.status = none) (hbody : w.body = "") :
    (rateLimiterHandler next false w).2 = 0 ∧
    (rateLimiterHandler next false w).1.status = some 429 ∧
    headerGet (rateLimiterHandler next false w).1 "Retry-After" = some "1" ∧
    List.IsInfix "\"code\":\"RATE_LIMITED\"".data
      (rateLimiterHandler next false w).1.body.data ∧
    (∀ w', rateLimiterHandler next true w' = (next w', 1)) := by
  refine ⟨rfl, ?_, ?_, ?_, fun w' => rfl⟩
  · simp [rateLimiterHandler, write, writeHeader, setHeader, hstatus]
  · simp [rateLimiterHandler, write, writeHeader, setHeader, headerGet, hstatus]
  · simp only [rateLimiterHandler, write, writeHeader, setHeader, hstatus, hbody]
    show List.IsInfix "\"code\":\"RATE_LIMITED\"".data ("" ++ rateLimitedBody).data
    rw [String.empty_append]
    decide

/-- Witness for C7: a fresh response writer and `id` as the downstream
handler. -/
theorem rateLimiter_boundary_witness :
    ((⟨none, [], ""⟩ : RespState).status = none ∧
      (⟨none, [], ""⟩ : RespState).body = "") ∧
    (rateLimiterHandler id false ⟨none, [], ""⟩).2 = 0 ∧
    (rateLimiterHandler id false ⟨none, [], ""⟩).1.status = some 429 ∧
    headerGet (rateLimiterHandler id false ⟨none, [], ""⟩).1 "Retry-After" =
      some "1" ∧
    List.IsInfix "\"code\":\"RATE_LIMITED\"".data
      (rateLimiterHandler id false ⟨none, [], ""⟩).1.body.data ∧
    (∀ w', rateLimiterHandler id true w' = (id w', 1)) := by
  refine ⟨⟨rfl, rfl⟩, ?_⟩
  exact rateLimiter_boundary id ⟨none, [], ""⟩ rfl rfl

/-! ## Claims about construction and lifecycle -/

/-- C8 counterexample: construction does not fail on a non-positive rate
or burst.  With `RequestsPerSecond = -1` and `Burst = 0` the constructor
completes, the invalid values are kept verbatim (only the zero durations
are silently defaulted), and the first `getLimiter` call passes `-1` and
`0` straight to the bucket constructor. -/
theorem rateLimiter_accepts_nonpositive_config :
    applyRateLimiterDefaults ⟨-1, 0, 0, 0⟩ =
      ⟨-1, 0, 5 * 60 * 1000000000, 10 * 60 * 1000000000⟩ ∧
    (getLimiter ⟨-1, 0, 0, 0⟩ ⟨[], 0⟩ "k" 0).1.limit = -1 ∧
    (getLimiter ⟨-1, 0, 0, 0⟩ ⟨[], 0⟩ "k" 0).1.burst = 0 := by
  refine ⟨?_, rfl, rfl⟩
  rfl

/-- C8 as amended: `RateLimiter` never fails at construction and performs
no validation: rate and burst pass through unchanged into every limiter it
constructs, while a zero `CleanupInterval` or `InactiveTTL` is silently
replaced by 5 or 10 minutes. -/
theorem rateLimiter_construction_never_fails (cfg : RateLimiterConfig) :
    (applyRateLimiterDefaults cfg).requestsPerSecond = cfg.requestsPerSecond ∧
    (applyRateLimiterDefaults cfg).burst = cfg.burst ∧
    (applyRateLimiterDefaults cfg).cleanupInterval =
      (if cfg.cleanupInterval = 0 then 5 * 60 * 1000000000
       else cfg.cleanupInterval) ∧
    (applyRateLimiterDefaults cfg).inactiveTTL =
      (if cfg.inactiveTTL = 0 then 10 * 60 * 1000000000 else cfg.inactiveTTL) ∧
    ∀ (n : Nat) (key : String) (now : ℤ),
      (getLimiter cfg ⟨[], n⟩ key now).1.limit = cfg.requestsPerSecond ∧
      (getLimiter cfg ⟨[], n⟩ key now).1.burst = cfg.burst :=
  ⟨rfl, rfl, rfl, rfl, fun _ _ _ => ⟨rfl, rfl⟩⟩

/-- The loop ignores every event once the state is terminated. -/
theorem evictorStep_none (ttl : ℤ) (ev : EvictorEvent) :
    evictorStep ttl none ev = none := by
  cases ev <;> rfl

/-- A terminated evictor stays terminated. -/
theorem foldl_evictorStep_none (ttl : ℤ) (evs : List EvictorEvent) :
    evs.foldl (evictorStep ttl) none = none := by
  induction evs with
  | nil => rfl
  | cons e rest ih => rw [List.foldl_cons, evictorStep_none]; exact ih

/-- C9 counterexample: the cancellation signal never reaches the evictor.
`RateLimiter` discards the cancel function (line 630) and returns only
the middleware, so the exposed cancellation handle is `none`; without a
`ctx.Done()` event the loop never terminates — here it is still running
after five ticks. -/
theorem evictor_cancel_unreachable :
    rateLimiterExposedCancel = none ∧
    evictorRun 600000000000 (List.replicate 5 (EvictorEvent.tick 0)) [] ≠ none := by
  exact ⟨rfl, by decide⟩

/-- C9 as amended: the evictor loop itself does select on a cancellation
context and terminates as soon as a `ctx.Done()` event occurs, but
`RateLimiter` assigns the cancel function to the blank identifier and
exposes no handle, so no caller can deliver that signal and the goroutine
stops only at process exit. -/
theorem evictor_stops_on_ctxDone (ttl : ℤ) (evs : List EvictorEvent) (m : Registry)
    (h : EvictorEvent.ctxDone ∈ evs) :
    evictorRun ttl evs m = none ∧ rateLimiterExposedCancel = none := by
  refine ⟨?_, rfl⟩
  induction evs generalizing m with
  | nil => simp at h
  | cons e rest ih =>
    rcases List.mem_cons.1 h with he | hm
    · subst he
      show rest.foldl (evictorStep ttl) none = none
      exact foldl_evictorStep_none ttl rest
    · cases e with
      | ctxDone =>
        show rest.foldl (evictorStep ttl) none = none
        exact foldl_evictorStep_none ttl rest
      | tick now =>
        exact ih (cleanupInactiveLimiters now ttl m) hm

/-- Witness for the amended C9: a run that observes a tick and then the
done signal terminates. -/
theorem evictor_stops_on_ctxDone_witness :
    (EvictorEvent.ctxDone ∈ [EvictorEvent.tick 0, EvictorEvent.ctxDone]) ∧
    evictorRun 0 [EvictorEvent.tick 0, EvictorEvent.ctxDone] [] = none ∧
    rateLimiterExposedCancel = none := by
  refine ⟨by decide, ?_⟩
  exact evictor_stops_on_ctxDone 0 [EvictorEvent.tick 0, EvictorEvent.ctxDone] []
    (by decide)

end OrderGo
